import Mathlib

/-!
Verification of the ban-coordination engine in `jailer-service.go`.

The per-address state lives in a shared list store: each key holds an
append-ordered list of infraction timestamps (Unix seconds).  We embed the
per-key logic of `AddInfraction`, the per-key body of `manageState`, the
startup reconciliation loop of `NewServiceJailer`, and the scheduling
goroutine's select loop.  Timestamps and durations are modelled as `Int`
seconds; a raw store entry is `some t` when it parses as a timestamp and
`none` when `strconv.ParseInt` rejects it.
-/

namespace Fail2ban

/-- The three configuration parameters consumed by the core:
`MaxRetry` (count threshold), `FindTime` and `BanTime` (seconds). -/
structure Config where
  MaxRetry : Nat
  FindTime : Int
  BanTime : Int
deriving DecidableEq, Repr

/-- One raw store-list entry: `some t` when the entry parses as a Unix
timestamp `t`, `none` when parsing fails. -/
abbrev Entry := Option Int

/-- `listToInfractions` (jailer-service.go lines 115-128): parse every raw
entry, skipping (with a logged warning) each entry that fails to parse. -/
def listToInfractions (redisList : List Entry) : List Int :=
  redisList.filterMap id

/-- `bannedUntil` (lines 130-136): the zero time (`none`) when the log is
shorter than `MaxRetry`, otherwise the last infraction plus `BanTime`.
(The Go code indexes the last element; with `MaxRetry ≥ 1` the guarded
branch is only reached on a nonempty list, so `getLast?` is `some`.) -/
def bannedUntil (cfg : Config) (infractions : List Int) : Option Int :=
  if infractions.length < cfg.MaxRetry then
    none
  else
    match infractions.getLast? with
    | some t => some (t + cfg.BanTime)
    | none => none

/-- The `limit` computed in `manageState`'s per-key loop (lines 169-175):
while a ban is still active the most recent `MaxRetry` entries are protected
from the staleness scan. -/
def scanLimit (cfg : Config) (now : Int) (infractions : List Int) : Nat :=
  match bannedUntil cfg infractions with
  | some endtime =>
      if now < endtime then infractions.length - cfg.MaxRetry
      else infractions.length
  | none => infractions.length

/-- The forward scan of lines 177-182: the loop index `i` runs from `0` up to
the fuel (the `limit`), stopping at the first entry younger than `FindTime`. -/
def staleBoundary (cfg : Config) (now : Int) : List Int → Nat → Nat
  | _, 0 => 0
  | [], _ + 1 => 0
  | t :: ts, k + 1 =>
      if now - t < cfg.FindTime then 0
      else staleBoundary cfg now ts k + 1

/-- The stopping index `i` of lines 177-182, with the limit of lines 169-175. -/
def staleIndex (cfg : Config) (now : Int) (infractions : List Int) : Nat :=
  staleBoundary cfg now infractions (scanLimit cfg now infractions)

/-- Effect of one `manageState` per-key iteration on a single key:
whether `unban` ran, whether the key was deleted, the surviving raw list,
and the number of entries trimmed from its front. -/
structure ScanOutcome where
  unbanned : Bool
  deleted : Bool
  newEntries : List Entry
  trimmed : Nat
deriving DecidableEq, Repr

/-- One iteration of `manageState`'s per-key loop (lines 162-203): read the
raw list, parse it, compute the stale boundary `i`, then either delete the
key (`i = len(infractions)`), trim the first `i` raw entries (`i > 0`), or do
nothing.  Note the trim (`LTrim key i -1`) drops the first `i` entries of the
RAW list although `i` was computed on the parsed list. -/
def manageKey (cfg : Config) (now : Int) (redisList : List Entry) : ScanOutcome :=
  if staleIndex cfg now (listToInfractions redisList) = (listToInfractions redisList).length then
    { unbanned := decide (cfg.MaxRetry ≤ (listToInfractions redisList).length)
      deleted := true
      newEntries := []
      trimmed := 0 }
  else if 0 < staleIndex cfg now (listToInfractions redisList) then
    { unbanned := decide (cfg.MaxRetry ≤ (listToInfractions redisList).length) &&
        decide ((listToInfractions redisList).length -
          staleIndex cfg now (listToInfractions redisList) < cfg.MaxRetry)
      deleted := false
      newEntries := redisList.drop (staleIndex cfg now (listToInfractions redisList))
      trimmed := staleIndex cfg now (listToInfractions redisList) }
  else
    { unbanned := false
      deleted := false
      newEntries := redisList
      trimmed := 0 }

/-- `manageKey` on a log whose entries all parse (the common case: the
service itself only ever appends integer timestamps). -/
def manageLog (cfg : Config) (now : Int) (log : List Int) : ScanOutcome :=
  manageKey cfg now (log.map some)

/-- Store state of one key: its raw list and its time-to-live (seconds). -/
structure KeyState where
  entries : List Entry
  ttl : Option Int
deriving DecidableEq, Repr

/-- Success or failure of the store calls one `AddInfraction` may issue
(`RPush`, `LTrim`, `Expire`); each may fail at runtime. -/
structure StoreOutcome where
  pushOk : Bool
  trimOk : Bool
  expireOk : Bool
deriving DecidableEq, Repr

/-- The outcome in which every store call succeeds. -/
def allOk : StoreOutcome := ⟨true, true, true⟩

/-- Result of one `AddInfraction` call: the key state afterwards, whether
`Ban` was invoked, and whether the call returned without error. -/
structure AddResult where
  state : KeyState
  banInvoked : Bool
  ok : Bool
deriving DecidableEq, Repr

/-- `AddInfraction` (lines 243-272): append `now` (`RPush`, returning the new
raw length `llen`); if `llen ≥ MaxRetry` invoke `Ban` (lines 274-281: it
always returns nil, dispatching the enforcement call asynchronously) and, if
`llen > MaxRetry`, trim to the most recent `MaxRetry` entries; finally
refresh the key's TTL to `2 × BanTime`.  A failed store call returns its
error immediately, skipping the remaining steps. -/
def addInfraction (cfg : Config) (now : Int) (oc : StoreOutcome) (st : KeyState) : AddResult :=
  if oc.pushOk then
    if cfg.MaxRetry ≤ (st.entries ++ [some now]).length then
      if cfg.MaxRetry < (st.entries ++ [some now]).length then
        if oc.trimOk then
          if oc.expireOk then
            ⟨⟨(st.entries ++ [some now]).drop ((st.entries ++ [some now]).length - cfg.MaxRetry),
              some (2 * cfg.BanTime)⟩, true, true⟩
          else
            ⟨⟨(st.entries ++ [some now]).drop ((st.entries ++ [some now]).length - cfg.MaxRetry),
              st.ttl⟩, true, false⟩
        else
          ⟨⟨st.entries ++ [some now], st.ttl⟩, true, false⟩
      else
        if oc.expireOk then
          ⟨⟨st.entries ++ [some now], some (2 * cfg.BanTime)⟩, true, true⟩
        else
          ⟨⟨st.entries ++ [some now], st.ttl⟩, true, false⟩
    else
      if oc.expireOk then
        ⟨⟨st.entries ++ [some now], some (2 * cfg.BanTime)⟩, false, true⟩
      else
        ⟨⟨st.entries ++ [some now], st.ttl⟩, false, false⟩
  else
    ⟨st, false, false⟩

/-- A sequence of `AddInfraction` calls at the given timestamps, every store
call succeeding. -/
def addSeq (cfg : Config) (ts : List Int) (st : KeyState) : KeyState :=
  ts.foldl (fun s t => (addInfraction cfg t allOk s).state) st

/-- The startup-reconciliation body for one enforcement-point member
(lines 59-71): read the log length `llen`, then call `AddInfraction` once for
each `i` from `llen` up to `MaxRetry` (`times j` is the clock at the j-th
synthetic call).  Returns the resulting key state and the number of calls. -/
def reconcileKey (cfg : Config) (times : Nat → Int) (st : KeyState) : KeyState × Nat :=
  (addSeq cfg ((List.range (cfg.MaxRetry - st.entries.length)).map times) st,
   cfg.MaxRetry - st.entries.length)

/-- One resolution of the `select` in the scheduling goroutine (lines 79-86):
either the quit channel fires or the timer fires.  -/
inductive LoopEvent
  | quit
  | tick
deriving DecidableEq, Repr

/-- One loop iteration: `(loop exited, manageState invoked)`.  In Go, `break`
inside `select` exits only the `select` statement, so the `quit` case leaves
the enclosing `for` loop running; only the timer case does work. -/
def loopIter : LoopEvent → Bool × Bool
  | .quit => (false, false)
  | .tick => (false, true)

/-- Number of `manageState` invocations while the goroutine processes the
given sequence of select resolutions, stopping early if an iteration exits
the loop. -/
def runLoop : List LoopEvent → Nat
  | [] => 0
  | e :: es =>
      (if (loopIter e).2 then 1 else 0) + (if (loopIter e).1 then 0 else runLoop es)

/-! ### Basic lemmas about the embedding -/

theorem listToInfractions_map_some (l : List Int) :
    listToInfractions (l.map some) = l := by
  simp [listToInfractions, List.filterMap_map]

theorem listToInfractions_filter_isSome (raw : List Entry) :
    listToInfractions (raw.filter fun e => e.isSome) = listToInfractions raw := by
  induction raw with
  | nil => rfl
  | cons e t ih =>
      cases e with
      | none => simpa [listToInfractions, List.filter_cons, List.filterMap_cons] using ih
      | some v => simpa [listToInfractions, List.filter_cons, List.filterMap_cons] using ih

theorem staleBoundary_le (cfg : Config) (now : Int) :
    ∀ (l : List Int) (k : Nat), staleBoundary cfg now l k ≤ k := by
  intro l
  induction l with
  | nil =>
      intro k
      cases k <;> simp [staleBoundary]
  | cons t ts ih =>
      intro k
      cases k with
      | zero => simp [staleBoundary]
      | succ k =>
          simp only [staleBoundary]
          split
          · exact Nat.zero_le _
          · exact Nat.succ_le_succ (ih k)

theorem staleBoundary_eq_of_stale (cfg : Config) (now : Int) (l : List Int) (k : Nat)
    (hk : k ≤ l.length) (h : ∀ t ∈ l, cfg.FindTime ≤ now - t) :
    staleBoundary cfg now l k = k := by
  induction l generalizing k with
  | nil =>
      cases k with
      | zero => rfl
      | succ k => simp at hk
  | cons t ts ih =>
      cases k with
      | zero => rfl
      | succ k =>
          have ht : ¬ now - t < cfg.FindTime := not_lt.mpr (h t (by simp))
          simp only [staleBoundary, if_neg ht]
          have hrec : staleBoundary cfg now ts k = k :=
            ih k (by simpa using hk) (fun x hx => h x (by simp [hx]))
          omega

theorem staleBoundary_zero_of_head_fresh (cfg : Config) (now t : Int) (ts : List Int)
    (k : Nat) (h : now - t < cfg.FindTime) :
    staleBoundary cfg now (t :: ts) k = 0 := by
  cases k with
  | zero => rfl
  | succ k => simp [staleBoundary, h]

theorem bannedUntil_of_ge (cfg : Config) (l : List Int) (hne : l ≠ [])
    (h : cfg.MaxRetry ≤ l.length) :
    bannedUntil cfg l = some (l.getLast hne + cfg.BanTime) := by
  simp only [bannedUntil, if_neg (not_lt.mpr h)]
  rw [List.getLast?_eq_getLast l hne]

theorem bannedUntil_of_lt (cfg : Config) (l : List Int) (h : l.length < cfg.MaxRetry) :
    bannedUntil cfg l = none := by
  simp [bannedUntil, h]

theorem addInfraction_allOk_length (cfg : Config) (t : Int) (st : KeyState) :
    (addInfraction cfg t allOk st).state.entries.length =
      min (st.entries.length + 1) cfg.MaxRetry := by
  simp only [addInfraction, allOk]
  split_ifs <;> simp_all [List.length_append] <;> omega

theorem addInfraction_allOk_ban (cfg : Config) (t : Int) (st : KeyState) :
    (addInfraction cfg t allOk st).banInvoked = true ↔
      cfg.MaxRetry ≤ st.entries.length + 1 := by
  simp only [addInfraction, allOk]
  split_ifs <;> simp_all [List.length_append]

theorem addSeq_nil (cfg : Config) (st : KeyState) : addSeq cfg [] st = st := rfl

theorem addSeq_cons (cfg : Config) (t : Int) (ts : List Int) (st : KeyState) :
    addSeq cfg (t :: ts) st = addSeq cfg ts (addInfraction cfg t allOk st).state := rfl

theorem addSeq_length (cfg : Config) (ts : List Int) (st : KeyState)
    (h : st.entries.length ≤ cfg.MaxRetry) :
    (addSeq cfg ts st).entries.length = min (st.entries.length + ts.length) cfg.MaxRetry := by
  induction ts generalizing st with
  | nil =>
      rw [addSeq_nil]
      simp
      omega
  | cons t ts ih =>
      rw [addSeq_cons, ih _ (by rw [addInfraction_allOk_length]; omega),
        addInfraction_allOk_length]
      simp [List.length_cons]
      omega

/-! ### Claim theorems -/

/-- C1: starting from an empty log, with `MaxRetry ≥ 1` and all reported
timestamps within `FindTime` of each other, the j-th successful
`AddInfraction` call invokes `Ban` exactly when the log length reaches
`MaxRetry` — on call number `MaxRetry` and never on any earlier call — and
immediately after that call the stored log length equals `MaxRetry`. -/
theorem addInfraction_ban_edge (cfg : Config) (ts : List Int)
    (hM : 1 ≤ cfg.MaxRetry)
    (hwin : ∀ a ∈ ts, ∀ b ∈ ts, a - b ≤ cfg.FindTime)
    (j : Nat) (hj : j < ts.length) :
    ((addInfraction cfg (ts.get ⟨j, hj⟩) allOk
        (addSeq cfg (ts.take j) ⟨[], none⟩)).banInvoked = true ↔
      cfg.MaxRetry ≤ j + 1) ∧
    (j + 1 = cfg.MaxRetry →
      (addInfraction cfg (ts.get ⟨j, hj⟩) allOk
        (addSeq cfg (ts.take j) ⟨[], none⟩)).state.entries.length = cfg.MaxRetry) := by
  have hlen : (addSeq cfg (ts.take j) ⟨[], none⟩).entries.length = min j cfg.MaxRetry := by
    have h := addSeq_length cfg (ts.take j) ⟨[], none⟩ (by simp)
    simpa [List.length_take, Nat.min_eq_left (Nat.le_of_lt hj)] using h
  constructor
  · rw [addInfraction_allOk_ban, hlen]
    omega
  · intro hje
    rw [addInfraction_allOk_length, hlen]
    omega

theorem addInfraction_ban_edge_witness :
    ((addInfraction ⟨2, 600, 3600⟩ 1 allOk
        (addSeq ⟨2, 600, 3600⟩ [0] ⟨[], none⟩)).banInvoked = true ↔ 2 ≤ 1 + 1) ∧
    (1 + 1 = 2 →
      (addInfraction ⟨2, 600, 3600⟩ 1 allOk
        (addSeq ⟨2, 600, 3600⟩ [0] ⟨[], none⟩)).state.entries.length = 2) :=
  addInfraction_ban_edge ⟨2, 600, 3600⟩ [0, 1] (by decide) (by decide) 1 (by decide)

/-- C4: after any successful `AddInfraction` call the stored log length never
exceeds `MaxRetry`; whenever the append returns a length above `MaxRetry` the
log is trimmed, within the same call, to exactly the most recent `MaxRetry`
entries. -/
theorem addInfraction_caps_length (cfg : Config) (t : Int) (oc : StoreOutcome)
    (st : KeyState) (hok : (addInfraction cfg t oc st).ok = true) :
    (addInfraction cfg t oc st).state.entries.length ≤ cfg.MaxRetry ∧
    (cfg.MaxRetry < st.entries.length + 1 →
      (addInfraction cfg t oc st).state.entries =
        (st.entries ++ [some t]).drop (st.entries.length + 1 - cfg.MaxRetry) ∧
      (addInfraction cfg t oc st).state.entries.length = cfg.MaxRetry) := by
  simp only [addInfraction] at hok ⊢
  split_ifs at hok ⊢ <;> simp_all [List.length_append] <;> omega

theorem addInfraction_caps_length_witness :
    (addInfraction ⟨1, 600, 3600⟩ 5 allOk ⟨[some 0], none⟩).state.entries.length ≤ 1 ∧
    (1 < 1 + 1 →
      (addInfraction ⟨1, 600, 3600⟩ 5 allOk ⟨[some 0], none⟩).state.entries =
        ([some 0, some 5] : List Entry).drop 1 ∧
      (addInfraction ⟨1, 600, 3600⟩ 5 allOk ⟨[some 0], none⟩).state.entries.length = 1) :=
  addInfraction_caps_length ⟨1, 600, 3600⟩ 5 allOk ⟨[some 0], none⟩ (by decide)

/-- C5 fails as stated: with `MaxRetry 1` and a log already holding one
entry, an append that succeeds but whose follow-up trim fails returns the
error before the `Expire` call, so the TTL is not refreshed on that path
even though the append succeeded. -/
theorem addInfraction_ttl_skipped_on_trim_failure :
    (⟨true, false, true⟩ : StoreOutcome).pushOk = true ∧
    (addInfraction ⟨1, 600, 3600⟩ 5 ⟨true, false, true⟩ ⟨[some 0], none⟩).state.entries =
      [some 0, some 5] ∧
    (addInfraction ⟨1, 600, 3600⟩ 5 ⟨true, false, true⟩ ⟨[some 0], none⟩).state.ttl = none := by
  decide

/-- C5 (amended): every `AddInfraction` call that returns without error —
every execution path in which the append and all follow-up store calls
succeed — refreshes the key's TTL to `2 × BanTime`. -/
theorem addInfraction_refreshes_ttl (cfg : Config) (t : Int) (oc : StoreOutcome)
    (st : KeyState) (hok : (addInfraction cfg t oc st).ok = true) :
    (addInfraction cfg t oc st).state.ttl = some (2 * cfg.BanTime) := by
  simp only [addInfraction] at hok ⊢
  split_ifs at hok ⊢ <;> simp_all

theorem addInfraction_refreshes_ttl_witness :
    (addInfraction ⟨1, 600, 3600⟩ 5 allOk ⟨[some 0], none⟩).state.ttl = some (2 * 3600) :=
  addInfraction_refreshes_ttl ⟨1, 600, 3600⟩ 5 allOk ⟨[some 0], none⟩ (by decide)

/-- C2 fails as stated: with `MaxRetry 1`, `FindTime 10`, `BanTime 1`, the
log `[0]` has `bannedUntil = some 1`, yet a maintenance pass at `now = 1`
(at `bannedUntil`, no infractions added since) neither unbans nor deletes:
the entry is still younger than `FindTime`, so the stale scan stops at 0. -/
theorem manageLog_at_bannedUntil_no_delete :
    bannedUntil ⟨1, 10, 1⟩ [0] = some 1 ∧
    (1 : Int) ≤ 1 ∧
    (manageLog ⟨1, 10, 1⟩ 1 [0]).unbanned = false ∧
    (manageLog ⟨1, 10, 1⟩ 1 [0]).deleted = false ∧
    (manageLog ⟨1, 10, 1⟩ 1 [0]).newEntries = [some 0] := by
  decide

/-- C2 (amended): for a log of banned length with non-decreasing entries,
`bannedUntil` is the last entry plus `BanTime`; and a single maintenance pass
at or after `bannedUntil` that also runs at least `FindTime` after the last
entry (automatic whenever `BanTime ≥ FindTime`) invokes `Unban` and deletes
the key. -/
theorem manageLog_unban_delete (cfg : Config) (log : List Int) (now : Int)
    (hne : log ≠ []) (hM : 1 ≤ cfg.MaxRetry) (hlen : cfg.MaxRetry ≤ log.length)
    (hmono : ∀ t ∈ log, t ≤ log.getLast hne)
    (hban : log.getLast hne + cfg.BanTime ≤ now)
    (hfind : log.getLast hne + cfg.FindTime ≤ now) :
    bannedUntil cfg log = some (log.getLast hne + cfg.BanTime) ∧
    (manageLog cfg now log).unbanned = true ∧
    (manageLog cfg now log).deleted = true ∧
    (manageLog cfg now log).newEntries = [] := by
  have hbu := bannedUntil_of_ge cfg log hne hlen
  have hlimit : scanLimit cfg now log = log.length := by
    simp [scanLimit, hbu, not_lt.mpr hban]
  have hstale : ∀ t ∈ log, cfg.FindTime ≤ now - t := by
    intro t ht
    have := hmono t ht
    omega
  have hi : staleIndex cfg now log = log.length := by
    rw [staleIndex, hlimit]
    exact staleBoundary_eq_of_stale cfg now log _ le_rfl hstale
  refine ⟨hbu, ?_, ?_, ?_⟩ <;>
    simp [manageLog, manageKey, listToInfractions_map_some, hi, hlen]

theorem manageLog_unban_delete_witness :
    bannedUntil ⟨1, 10, 20⟩ [0] = some (0 + 20) ∧
    (manageLog ⟨1, 10, 20⟩ 30 [0]).unbanned = true ∧
    (manageLog ⟨1, 10, 20⟩ 30 [0]).deleted = true ∧
    (manageLog ⟨1, 10, 20⟩ 30 [0]).newEntries = [] :=
  manageLog_unban_delete ⟨1, 10, 20⟩ [0] 30 (by decide) (by decide) (by decide)
    (by decide) (by decide) (by decide)

/-- C6: when the stale boundary `i` satisfies `0 < i < len(log)`, `Unban`
runs iff `len ≥ MaxRetry` and `len − i < MaxRetry`, exactly the first `i`
entries are discarded, and the key is not deleted; in the concrete scenario
(3 infractions, only the oldest older than `FindTime`, `MaxRetry = 5`)
exactly one entry is trimmed, two remain, and no enforcement call is made. -/
theorem manageLog_trim_policy (cfg : Config) (now : Int) (log : List Int)
    (h0 : 0 < staleIndex cfg now log) (hn : staleIndex cfg now log < log.length) :
    ((manageLog cfg now log).unbanned =
      (decide (cfg.MaxRetry ≤ log.length) &&
        decide (log.length - staleIndex cfg now log < cfg.MaxRetry))) ∧
    (manageLog cfg now log).deleted = false ∧
    (manageLog cfg now log).newEntries = (log.drop (staleIndex cfg now log)).map some ∧
    (manageLog cfg now log).trimmed = staleIndex cfg now log ∧
    manageLog ⟨5, 600, 3600⟩ 650 [0, 500, 550] =
      ⟨false, false, [some 500, some 550], 1⟩ := by
  have hne : staleIndex cfg now log ≠ log.length := Nat.ne_of_lt hn
  refine ⟨?_, ?_, ?_, ?_, by decide⟩ <;>
    simp [manageLog, manageKey, listToInfractions_map_some, hne, h0, List.map_drop]

theorem manageLog_trim_policy_witness :
    (manageLog ⟨5, 600, 3600⟩ 650 [0, 500, 550]).unbanned = false ∧
    (manageLog ⟨5, 600, 3600⟩ 650 [0, 500, 550]).deleted = false ∧
    (manageLog ⟨5, 600, 3600⟩ 650 [0, 500, 550]).newEntries = [some 500, some 550] ∧
    (manageLog ⟨5, 600, 3600⟩ 650 [0, 500, 550]).trimmed = 1 ∧
    manageLog ⟨5, 600, 3600⟩ 650 [0, 500, 550] =
      ⟨false, false, [some 500, some 550], 1⟩ :=
  manageLog_trim_policy ⟨5, 600, 3600⟩ 650 [0, 500, 550] (by decide) (by decide)

/-- When the stale scan stops immediately, a nonempty all-parseable log is
left untouched and no action is taken. -/
theorem manageLog_of_staleIndex_zero (cfg : Config) (now : Int) (log : List Int)
    (hne : log ≠ []) (hi : staleIndex cfg now log = 0) :
    manageLog cfg now log = ⟨false, false, log.map some, 0⟩ := by
  have hlen0 : log.length ≠ 0 := fun h => hne (List.length_eq_zero.mp h)
  simp only [manageLog, manageKey, listToInfractions_map_some, hi]
  rw [if_neg (fun h => hlen0 h.symm), if_neg (lt_irrefl 0)]

/-- C7: a maintenance pass run while every entry of a (nonempty) log is
strictly younger than `FindTime` leaves the log untouched: no trim, no key
deletion, no `Unban`. -/
theorem manageLog_fresh_untouched (cfg : Config) (now : Int) (log : List Int)
    (hne : log ≠ []) (hfresh : ∀ t ∈ log, now - t < cfg.FindTime) :
    (manageLog cfg now log).newEntries = log.map some ∧
    (manageLog cfg now log).deleted = false ∧
    (manageLog cfg now log).unbanned = false ∧
    (manageLog cfg now log).trimmed = 0 := by
  have hi : staleIndex cfg now log = 0 := by
    obtain ⟨t, ts, rfl⟩ := List.exists_cons_of_ne_nil hne
    exact staleBoundary_zero_of_head_fresh cfg now t ts _ (hfresh t (by simp))
  rw [manageLog_of_staleIndex_zero cfg now log hne hi]
  exact ⟨rfl, rfl, rfl, rfl⟩

theorem manageLog_fresh_untouched_witness :
    (manageLog ⟨5, 600, 3600⟩ 100 [50]).newEntries = [some 50] ∧
    (manageLog ⟨5, 600, 3600⟩ 100 [50]).deleted = false ∧
    (manageLog ⟨5, 600, 3600⟩ 100 [50]).unbanned = false ∧
    (manageLog ⟨5, 600, 3600⟩ 100 [50]).trimmed = 0 :=
  manageLog_fresh_untouched ⟨5, 600, 3600⟩ 100 [50] (by decide) (by decide)

/-- C9 fails as stated: on the raw list `[unparseable, 0, 100]` with
`FindTime 50` at `now = 100`, the boundary `i = 1` is computed on the parsed
list but `LTrim` drops the first raw entry, so the stale entry `0` survives;
on the cleaned list the same pass leaves only `[100]`. -/
theorem manageKey_raw_trim_divergence :
    (manageKey ⟨5, 50, 3600⟩ 100 [none, some 0, some 100]).deleted =
      (manageKey ⟨5, 50, 3600⟩ 100
        (([none, some 0, some 100] : List Entry).filter fun e => e.isSome)).deleted ∧
    listToInfractions
      (manageKey ⟨5, 50, 3600⟩ 100 [none, some 0, some 100]).newEntries = [0, 100] ∧
    listToInfractions
      (manageKey ⟨5, 50, 3600⟩ 100
        (([none, some 0, some 100] : List Entry).filter fun e => e.isSome)).newEntries =
      [100] ∧
    ([0, 100] : List Int) ≠ [100] := by
  decide

/-- C9 (amended): the pass's decisions — whether `Unban` runs, whether the
key is deleted, and the trim count — are computed from the parsed entries
only, so they agree with the run on the same list with every unparseable
entry removed; but the trim discards the first `i` entries of the raw list,
so the surviving valid entries can differ when an unparseable entry precedes
the trim boundary. -/
theorem manageKey_decisions_ignore_invalid (cfg : Config) (now : Int) (raw : List Entry) :
    (manageKey cfg now raw).unbanned =
      (manageKey cfg now (raw.filter fun e => e.isSome)).unbanned ∧
    (manageKey cfg now raw).deleted =
      (manageKey cfg now (raw.filter fun e => e.isSome)).deleted ∧
    (manageKey cfg now raw).trimmed =
      (manageKey cfg now (raw.filter fun e => e.isSome)).trimmed ∧
    ((manageKey cfg now raw).deleted = true → (manageKey cfg now raw).newEntries = []) ∧
    ((manageKey cfg now raw).deleted = false →
      (manageKey cfg now raw).newEntries = raw.drop (manageKey cfg now raw).trimmed) := by
  have hfix := listToInfractions_filter_isSome raw
  refine ⟨?_, ?_, ?_, ?_, ?_⟩ <;>
    simp only [manageKey, hfix] <;> split_ifs <;> simp

/-- C10: an address banned at scan time (log length at least `MaxRetry ≥ 1`
and `now` strictly before last entry plus `BanTime`) is never unbanned, its
key is never deleted, and its most recent `MaxRetry` entries all survive the
pass. -/
theorem manageLog_banned_protected (cfg : Config) (log : List Int) (now : Int)
    (hne : log ≠ []) (hM : 1 ≤ cfg.MaxRetry) (hlen : cfg.MaxRetry ≤ log.length)
    (hnow : now < log.getLast hne + cfg.BanTime) :
    (manageLog cfg now log).unbanned = false ∧
    (manageLog cfg now log).deleted = false ∧
    List.IsSuffix ((log.drop (log.length - cfg.MaxRetry)).map some)
      (manageLog cfg now log).newEntries := by
  have hbu := bannedUntil_of_ge cfg log hne hlen
  have hlimit : scanLimit cfg now log = log.length - cfg.MaxRetry := by
    simp [scanLimit, hbu, hnow]
  have hile : staleIndex cfg now log ≤ log.length - cfg.MaxRetry := by
    rw [staleIndex, hlimit]
    exact staleBoundary_le cfg now log _
  have hine : staleIndex cfg now log ≠ log.length := by omega
  by_cases hpos : 0 < staleIndex cfg now log
  · have hnb : ¬ (log.length - staleIndex cfg now log < cfg.MaxRetry) := by omega
    have h2 : List.IsSuffix (log.drop (log.length - cfg.MaxRetry))
        (log.drop (staleIndex cfg now log)) := by
      have h3 := List.drop_suffix (log.length - cfg.MaxRetry - staleIndex cfg now log)
        (log.drop (staleIndex cfg now log))
      rw [List.drop_drop] at h3
      have heq : staleIndex cfg now log +
          (log.length - cfg.MaxRetry - staleIndex cfg now log) =
          log.length - cfg.MaxRetry := by omega
      rwa [heq] at h3
    refine ⟨?_, ?_, ?_⟩ <;>
      simp [manageLog, manageKey, listToInfractions_map_some, hine, hpos, hnb]
    simpa [List.map_drop] using h2.map some
  · have hz : staleIndex cfg now log = 0 := by omega
    have hzl : (0 : Nat) ≠ log.length := by
      intro h
      exact hne (List.length_eq_zero.mp h.symm)
    refine ⟨?_, ?_, ?_⟩ <;>
      simp [manageLog, manageKey, listToInfractions_map_some, hz, hzl]
    exact List.drop_suffix _ _

theorem manageLog_banned_protected_witness :
    (manageLog ⟨1, 600, 3600⟩ 5 [0]).unbanned = false ∧
    (manageLog ⟨1, 600, 3600⟩ 5 [0]).deleted = false ∧
    List.IsSuffix [some 0] (manageLog ⟨1, 600, 3600⟩ 5 [0]).newEntries :=
  manageLog_banned_protected ⟨1, 600, 3600⟩ [0] 5 (by decide) (by decide) (by decide)
    (by decide)

/-- C8 fails as stated: a log already longer than `MaxRetry` (length 3,
`MaxRetry 2`) is left untouched by reconciliation, so running it twice still
leaves a log with length above `MaxRetry`. -/
theorem reconcileKey_overlong_log_remains :
    (reconcileKey ⟨2, 600, 3600⟩ (fun _ => 0)
        (reconcileKey ⟨2, 600, 3600⟩ (fun _ => 0) ⟨[some 0, some 0, some 0], none⟩).1).2 = 0 ∧
    (reconcileKey ⟨2, 600, 3600⟩ (fun _ => 0)
        (reconcileKey ⟨2, 600, 3600⟩ (fun _ => 0)
          ⟨[some 0, some 0, some 0], none⟩).1).1.entries.length = 3 ∧
    2 < 3 := by
  decide

/-- C8 (amended): reconciliation calls `AddInfraction` exactly
`max(0, MaxRetry − log length)` times; provided the log starts within the
store invariant (length ≤ `MaxRetry`), it ends at exactly `MaxRetry`, and a
second run against unchanged membership performs zero appends and changes
nothing — so no log within the invariant is ever pushed above `MaxRetry`. -/
theorem reconcileKey_idempotent (cfg : Config) (times times2 : Nat → Int)
    (st : KeyState) (hinv : st.entries.length ≤ cfg.MaxRetry) :
    (reconcileKey cfg times st).2 = cfg.MaxRetry - st.entries.length ∧
    (reconcileKey cfg times st).1.entries.length ≤ cfg.MaxRetry ∧
    (reconcileKey cfg times2 (reconcileKey cfg times st).1).2 = 0 ∧
    (reconcileKey cfg times2 (reconcileKey cfg times st).1).1 =
      (reconcileKey cfg times st).1 := by
  have hlen1 : (addSeq cfg
      ((List.range (cfg.MaxRetry - st.entries.length)).map times) st).entries.length =
      cfg.MaxRetry := by
    rw [addSeq_length cfg _ st hinv]
    simp
    omega
  refine ⟨rfl, ?_, ?_, ?_⟩
  · simp only [reconcileKey]
    exact Nat.le_of_eq hlen1
  · simp only [reconcileKey]
    omega
  · simp only [reconcileKey]
    rw [hlen1, Nat.sub_self]
    simp [addSeq_nil]

theorem reconcileKey_idempotent_witness :
    (reconcileKey ⟨2, 600, 3600⟩ (fun _ => 0) ⟨[], none⟩).2 = 2 ∧
    (reconcileKey ⟨2, 600, 3600⟩ (fun _ => 0) ⟨[], none⟩).1.entries.length ≤ 2 ∧
    (reconcileKey ⟨2, 600, 3600⟩ (fun _ => 1)
      (reconcileKey ⟨2, 600, 3600⟩ (fun _ => 0) ⟨[], none⟩).1).2 = 0 ∧
    (reconcileKey ⟨2, 600, 3600⟩ (fun _ => 1)
      (reconcileKey ⟨2, 600, 3600⟩ (fun _ => 0) ⟨[], none⟩).1).1 =
      (reconcileKey ⟨2, 600, 3600⟩ (fun _ => 0) ⟨[], none⟩).1 :=
  reconcileKey_idempotent ⟨2, 600, 3600⟩ (fun _ => 0) (fun _ => 1) ⟨[], none⟩ (by decide)

/-- C3: the code violates the claim.  The `break` in the quit case exits only
the `select`, not the enclosing `for` loop, so after the quit signal is
received a later timer tick still invokes the Maintenance Scanner: the
resolution sequence `[quit]` yields 0 invocations, but `[quit, tick]` yields
1 — an invocation strictly after the cancellation signal was received. -/
theorem runLoop_continues_after_quit :
    runLoop [LoopEvent.quit] = 0 ∧
    runLoop [LoopEvent.quit, LoopEvent.tick] = 1 := by
  decide

end Fail2ban
